import Mathlib

/-
Verification of the load-test script (aws-python-script.py).

Shallow embedding notes.  The script drives a sequential loop
`while time.time() < end_time`, issuing one HTTP GET per iteration and
appending exactly one row per iteration.  We embed the loop over an explicit
trace of per-iteration observations (`Step`): the wall-clock reading taken at
the loop guard, the ISO timestamp string, the measured latency, and the
outcome of the network call (a status code, or the message of a caught
`requests.RequestException`).  Times and latencies are modelled as rationals.
`summarize` is embedded statement by statement: the three list comprehensions,
the early `return None` on an empty latency list, and numpy's
linear-interpolation percentile, max and boolean-mean computations.
-/

namespace LoadTest

/-- Outcome of one `session.get` call: either a response carrying a numeric
HTTP status code, or a raised `requests.RequestException` carrying the string
`str(e)`. -/
inductive ReqResult where
  | response (status : ℕ)
  | exn (msg : String)
deriving DecidableEq

/-- True exactly on the exception outcome of a network call. -/
def ReqResult.isFailure : ReqResult → Bool
  | ReqResult.exn _ => true
  | ReqResult.response _ => false

/-- One iteration of the load-test loop, as observed from outside: the value
`time.time()` returned at the loop guard, the timestamp string, the measured
latency in milliseconds, and the outcome of the network call. -/
structure Step where
  now : ℚ
  ts : String
  latency_ms : ℚ
  result : ReqResult
deriving DecidableEq

instance : Inhabited Step := ⟨⟨0, "", 0, ReqResult.response 0⟩⟩

/-- One dict appended to `rows`: `request_num`, `timestamp_utc`, `latency_ms`,
`status_code` (an int, or `""` modelled as `none`), `error` (a string, `""`
when no exception was raised). -/
structure Row where
  request_num : ℕ
  timestamp_utc : String
  latency_ms : ℚ
  status_code : Option ℕ
  error : String
deriving DecidableEq

instance : Inhabited Row := ⟨⟨0, "", 0, none, ""⟩⟩

/-- The row appended for iteration `i`: on a response, `status` is set and
`err` stays `""`; on a caught exception, `status` stays `None` (rendered `""`)
and `err` is the exception text. -/
def mkRow (i : ℕ) (s : Step) : Row :=
  match s.result with
  | ReqResult.response st =>
      { request_num := i, timestamp_utc := s.ts, latency_ms := s.latency_ms,
        status_code := some st, error := "" }
  | ReqResult.exn m =>
      { request_num := i, timestamp_utc := s.ts, latency_ms := s.latency_ms,
        status_code := none, error := m }

/-- The `while time.time() < end_time` loop: `i` is the request counter, each
admitted iteration appends `mkRow (i+1)` and recurses; the first guard failure
ends the run. -/
def load_test_loop (end_time : ℚ) : ℕ → List Step → List Row
  | _, [] => []
  | i, s :: rest =>
    if s.now < end_time then mkRow (i + 1) s :: load_test_loop end_time (i + 1) rest
    else []

/-- `load_test(url, duration_seconds, timeout_seconds, sleep_ms)`: computes
`end_time = start + duration_seconds` (where `start` is the `time.time()`
reading at entry) and runs the loop over the iteration trace.  `url`,
`timeout_seconds` and `sleep_ms` flow only into the network call and the
inter-request sleep, which the trace already reflects; in particular none of
them is validated. -/
def load_test (url : String) (duration_seconds timeout_seconds sleep_ms : ℚ)
    (start : ℚ) (steps : List Step) : List Row :=
  load_test_loop (start + duration_seconds) 0 steps

/-- The iterations actually admitted by the loop guard. -/
def dispatched (end_time : ℚ) (steps : List Step) : List Step :=
  steps.takeWhile (fun s => decide (s.now < end_time))

/-- Rows produced for a list of admitted steps, numbering from `i + 1`. -/
def rowsOf : ℕ → List Step → List Row
  | _, [] => []
  | i, s :: rest => mkRow (i + 1) s :: rowsOf (i + 1) rest

/-- Row filter of line 71: `r["error"] == "" and str(r["status_code"]) != ""`
(the status code is an int whenever it is not the empty string, and `str` of
an int is never empty). -/
def isSuccessRow (r : Row) : Bool :=
  r.error == "" && r.status_code.isSome

/-- Line 71: the latencies of the rows counted as successful responses. -/
def latencies (rows : List Row) : List ℚ :=
  (rows.filter isSuccessRow).map (fun r => r.latency_ms)

/-- Line 72: rows counted as errors/exceptions. -/
def errors (rows : List Row) : List Row :=
  rows.filter (fun r => r.error != "")

/-- Line 73: rows counted as non-200 responses
(`r["status_code"] not in ("", 200, "200")`; with `status_code` an int or
`""`, this keeps exactly the rows that carry a status other than 200). -/
def non_200 (rows : List Row) : List Row :=
  rows.filter (fun r =>
    r.error == "" && (match r.status_code with
      | some st => st != 200
      | none => false))

/-- Return value of `summarize`: `None` when no successful response was
collected, otherwise the latency array (`np.array(latencies)`). -/
def summarize (rows : List Row) (slow_threshold_ms : ℚ) : Option (List ℚ) :=
  let lat := latencies rows
  if lat.isEmpty then none else some lat

/-- Line 89: `np.mean(arr > slow_threshold_ms) * 100.0`, the percentage of
entries of `arr` strictly above the threshold. -/
def slow_pct (l : List ℚ) (slow_threshold_ms : ℚ) : ℚ :=
  ((l.filter (fun x => decide (slow_threshold_ms < x))).length : ℚ) / (l.length : ℚ) * 100

/-- `np.max(arr)`: maximum of a nonempty array, folded from its head. -/
def np_max (l : List ℚ) : ℚ :=
  l.foldl max (l.headD 0)

/-- Linear interpolation at a fractional index into an array, as numpy's
default percentile method performs on the sorted data: with `i = ⌊pos⌋`, the
value is `a[i] + (pos - i) * (a[i+1] - a[i])`, the upper index clipped to the
last position. -/
def interp (s : List ℚ) (pos : ℚ) : ℚ :=
  let i := (⌊pos⌋).toNat
  let lo := s.getD i 0
  let hi := s.getD (min (i + 1) (s.length - 1)) 0
  lo + (pos - (i : ℚ)) * (hi - lo)

/-- `np.percentile(arr, p)` with the default linear interpolation: sort the
data and interpolate at virtual index `p / 100 * (n - 1)`. -/
def percentile (l : List ℚ) (p : ℚ) : ℚ :=
  interp (l.insertionSort (fun a b => a ≤ b))
    (p / 100 * (((l.insertionSort (fun a b => a ≤ b)).length : ℚ) - 1))

/-- The four counts printed by `summarize` (lines 76 to 79). -/
structure Report where
  total : ℕ
  success : ℕ
  non_200_count : ℕ
  error_count : ℕ
deriving DecidableEq

/-- State-passing rendering of `summarize`: every statement of the body only
reads `rows` (three list comprehensions, `len`, and the conversion of the
fresh `latencies` list to an array), so the `rows` object is threaded through
unchanged and returned as the post-state, next to the printed counts and the
return value. -/
def summarize_st (rows : List Row) (slow_threshold_ms : ℚ) :
    Report × Option (List ℚ) × List Row :=
  let lat := latencies rows
  let errs := errors rows
  let n2 := non_200 rows
  let rep : Report := ⟨rows.length, lat.length, n2.length, errs.length⟩
  if lat.isEmpty then (rep, none, rows) else (rep, some lat, rows)

/-- The loop produces exactly the rows of the guard-admitted steps. -/
lemma load_test_loop_eq (et : ℚ) (steps : List Step) :
    ∀ i, load_test_loop et i steps = rowsOf i (dispatched et steps) := by
  induction steps with
  | nil => intro i; rfl
  | cons s rest ih =>
    intro i
    by_cases h : s.now < et
    · simp only [load_test_loop, dispatched, List.takeWhile_cons, decide_eq_true_eq, if_pos h,
        rowsOf]
      rw [ih (i + 1)]
      rfl
    · simp [load_test_loop, dispatched, List.takeWhile_cons, h, rowsOf]

lemma rowsOf_length (l : List Step) : ∀ i, (rowsOf i l).length = l.length := by
  induction l with
  | nil => intro i; rfl
  | cons s rest ih => intro i; simp [rowsOf, ih (i + 1)]

lemma mkRow_request_num (i : ℕ) (s : Step) : (mkRow i s).request_num = i := by
  rcases s with ⟨now, ts, lat, res⟩
  cases res <;> rfl

lemma mkRow_response {s : Step} {st : ℕ} (h : s.result = ReqResult.response st) (i : ℕ) :
    (mkRow i s).status_code = some st ∧ (mkRow i s).error = "" := by
  rcases s with ⟨now, ts, lat, res⟩
  cases res with
  | response st2 => simp only [Step.result] at h; cases h; exact ⟨rfl, rfl⟩
  | exn m => simp at h

lemma mkRow_exn {s : Step} {m : String} (h : s.result = ReqResult.exn m) (i : ℕ) :
    (mkRow i s).status_code = none ∧ (mkRow i s).error = m := by
  rcases s with ⟨now, ts, lat, res⟩
  cases res with
  | response st2 => simp at h
  | exn m2 => simp only [Step.result] at h; cases h; exact ⟨rfl, rfl⟩

lemma rowsOf_map_num (l : List Step) :
    ∀ i, (rowsOf i l).map (fun r => r.request_num) = List.range' (i + 1) l.length := by
  induction l with
  | nil => intro i; rfl
  | cons s rest ih =>
    intro i
    show (mkRow (i + 1) s :: rowsOf (i + 1) rest).map (fun r => r.request_num) =
      List.range' (i + 1) (rest.length + 1)
    rw [List.range'_succ, List.map_cons, mkRow_request_num, ih (i + 1)]

lemma rowsOf_getD (l : List Step) :
    ∀ i k, k < l.length → (rowsOf i l).getD k default = mkRow (i + 1 + k) (l.getD k default) := by
  induction l with
  | nil => intro i k hk; simp at hk
  | cons s rest ih =>
    intro i k hk
    cases k with
    | zero => simp [rowsOf]
    | succ k2 =>
      have hk2 : k2 < rest.length := by simpa using hk
      have harith : i + 1 + 1 + k2 = i + 1 + (k2 + 1) := by omega
      simp only [rowsOf, List.getD_cons_succ]
      rw [ih (i + 1) k2 hk2, harith]

lemma rowsOf_mem {r : Row} (l : List Step) :
    ∀ i, r ∈ rowsOf i l → ∃ j s, s ∈ l ∧ r = mkRow j s := by
  induction l with
  | nil => intro i h; simp [rowsOf] at h
  | cons s rest ih =>
    intro i h
    rcases List.mem_cons.mp h with h | h
    · exact ⟨i + 1, s, List.mem_cons_self s rest, h⟩
    · rcases ih (i + 1) h with ⟨j, s2, hs2, he⟩
      exact ⟨j, s2, List.mem_cons_of_mem s hs2, he⟩

lemma dispatched_sub (et : ℚ) (steps : List Step) :
    ∀ s ∈ dispatched et steps, s ∈ steps :=
  fun s hs => (List.takeWhile_sublist _).subset hs

lemma dispatched_length_le (et : ℚ) (steps : List Step) :
    (dispatched et steps).length ≤ steps.length :=
  (List.takeWhile_sublist _).length_le

lemma dispatched_getD (et : ℚ) :
    ∀ (steps : List Step) k, k < (dispatched et steps).length →
      (dispatched et steps).getD k default = steps.getD k default := by
  intro steps
  induction steps with
  | nil => intro k hk; simp [dispatched] at hk
  | cons s rest ih =>
    intro k hk
    by_cases h : s.now < et
    · cases k with
      | zero => simp [dispatched, List.takeWhile_cons, h]
      | succ k2 =>
        have hk2 : k2 < (dispatched et rest).length := by
          simp only [dispatched, List.takeWhile_cons, decide_eq_true_eq, if_pos h,
            List.length_cons] at hk
          simpa [dispatched] using Nat.lt_of_succ_lt_succ hk
        simp only [dispatched, List.takeWhile_cons, decide_eq_true_eq, if_pos h,
          List.getD_cons_succ]
        exact ih k2 hk2
    · simp [dispatched, List.takeWhile_cons, h] at hk

/-- C3: a run of `load_test` produces exactly one row per dispatched request
(one per guard-admitted loop iteration), and the `request_num` values of the
produced rows are exactly the contiguous range `1, 2, ..., total` in order,
with no duplicates or gaps. -/
theorem load_test_request_nums (url : String)
    (duration_seconds timeout_seconds sleep_ms start : ℚ) (steps : List Step) :
    (load_test url duration_seconds timeout_seconds sleep_ms start steps).map
        (fun r => r.request_num) =
      List.range' 1 (load_test url duration_seconds timeout_seconds sleep_ms start steps).length ∧
    (load_test url duration_seconds timeout_seconds sleep_ms start steps).length =
      (dispatched (start + duration_seconds) steps).length := by
  unfold load_test
  rw [load_test_loop_eq (start + duration_seconds) steps 0]
  exact ⟨by rw [rowsOf_length, rowsOf_map_num], rowsOf_length _ 0⟩

/-- C5: a request whose network call raises an exception is recorded as a
failure on exactly one row (the row of its own iteration, carrying the
exception text and an empty status), and the failure never aborts the run:
the number of rows equals the number of guard-admitted iterations regardless
of outcomes, so later requests are still issued and `load_test` returns
normally. -/
theorem load_test_failure_isolated (url : String)
    (duration_seconds timeout_seconds sleep_ms start : ℚ) (steps : List Step) :
    (load_test url duration_seconds timeout_seconds sleep_ms start steps).length =
      (dispatched (start + duration_seconds) steps).length ∧
    ∀ k m, k < (load_test url duration_seconds timeout_seconds sleep_ms start steps).length →
      (steps.getD k default).result = ReqResult.exn m →
      ((load_test url duration_seconds timeout_seconds sleep_ms start steps).getD k default).error
          = m ∧
      ((load_test url duration_seconds timeout_seconds sleep_ms start
          steps).getD k default).status_code = none := by
  unfold load_test
  rw [load_test_loop_eq (start + duration_seconds) steps 0]
  refine ⟨rowsOf_length _ 0, ?_⟩
  intro k m hk hres
  rw [rowsOf_length _ 0] at hk
  rw [rowsOf_getD _ 0 k hk, dispatched_getD _ steps k hk]
  rcases mkRow_exn hres (0 + 1 + k) with ⟨h1, h2⟩
  exact ⟨h2, h1⟩

/-- Witness for C5 at a concrete run: the first request fails with
"refused", a second request is still issued afterwards, and the failing row
carries the error text with an empty status code. -/
theorem load_test_failure_isolated_witness :
    0 < (load_test "u" 1 10 0 0
        [⟨0, "t", 1, ReqResult.exn "refused"⟩, ⟨0, "t", 1, ReqResult.response 200⟩]).length ∧
    (([⟨0, "t", 1, ReqResult.exn "refused"⟩, ⟨0, "t", 1, ReqResult.response 200⟩] :
        List Step).getD 0 default).result = ReqResult.exn "refused" ∧
    (load_test "u" 1 10 0 0
        [⟨0, "t", 1, ReqResult.exn "refused"⟩, ⟨0, "t", 1, ReqResult.response 200⟩]).length = 2 ∧
    ((load_test "u" 1 10 0 0
        [⟨0, "t", 1, ReqResult.exn "refused"⟩,
          ⟨0, "t", 1, ReqResult.response 200⟩]).getD 0 default).error = "refused" ∧
    ((load_test "u" 1 10 0 0
        [⟨0, "t", 1, ReqResult.exn "refused"⟩,
          ⟨0, "t", 1, ReqResult.response 200⟩]).getD 0 default).status_code = none := by
  have hlen : (load_test "u" 1 10 0 0
      [⟨0, "t", 1, ReqResult.exn "refused"⟩, ⟨0, "t", 1, ReqResult.response 200⟩]).length = 2 := by
    norm_num [load_test, load_test_loop]
  have h := (load_test_failure_isolated "u" 1 10 0 0
      [⟨0, "t", 1, ReqResult.exn "refused"⟩, ⟨0, "t", 1, ReqResult.response 200⟩]).2
      0 "refused" (by rw [hlen]; norm_num) (by decide)
  exact ⟨by rw [hlen]; norm_num, by decide, hlen, h.1, h.2⟩

/-- Boolean row/outcome correspondence used to state C9: a response outcome
yields the status code and an empty error, an exception outcome yields an
empty status code and the exception text as error. -/
def rowMatchesStep (row : Row) (s : Step) : Bool :=
  match s.result with
  | ReqResult.response st => row.status_code == some st && row.error == ""
  | ReqResult.exn m => row.status_code == none && row.error == m

/-- C9: in every row produced by `load_test`, the status code is empty
exactly when the network call of that iteration raised an exception (in which
case the error field is the exception text), and otherwise the error field is
empty and the status code holds the numeric status; no row carries both. -/
theorem load_test_status_error_exclusive (url : String)
    (duration_seconds timeout_seconds sleep_ms start : ℚ) (steps : List Step) :
    ∀ k, k < (load_test url duration_seconds timeout_seconds sleep_ms start steps).length →
      k < steps.length ∧
      rowMatchesStep
          ((load_test url duration_seconds timeout_seconds sleep_ms start steps).getD k default)
          (steps.getD k default) = true ∧
      (((load_test url duration_seconds timeout_seconds sleep_ms start
            steps).getD k default).status_code = none ↔
        (steps.getD k default).result.isFailure = true) := by
  intro k hk
  unfold load_test at hk ⊢
  rw [load_test_loop_eq (start + duration_seconds) steps 0] at hk ⊢
  rw [rowsOf_length _ 0] at hk
  have hks : k < steps.length := lt_of_lt_of_le hk (dispatched_length_le _ steps)
  rw [rowsOf_getD _ 0 k hk, dispatched_getD _ steps k hk]
  refine ⟨hks, ?_, ?_⟩
  · rcases hres : (steps.getD k default).result with st | m
    · rcases mkRow_response hres (0 + 1 + k) with ⟨h1, h2⟩
      simp only [rowMatchesStep]
      rw [hres, h1, h2]
      simp
    · rcases mkRow_exn hres (0 + 1 + k) with ⟨h1, h2⟩
      simp only [rowMatchesStep]
      rw [hres, h1, h2]
      simp
  · rcases hres : (steps.getD k default).result with st | m
    · rcases mkRow_response hres (0 + 1 + k) with ⟨h1, h2⟩
      rw [h1]
      simp [ReqResult.isFailure]
    · rcases mkRow_exn hres (0 + 1 + k) with ⟨h1, h2⟩
      rw [h1]
      simp [ReqResult.isFailure]

/-- Witness for C9 at a concrete run whose single request raises an
exception. -/
theorem load_test_status_error_exclusive_witness :
    0 < (load_test "u" 1 10 0 0 [⟨0, "t", 1, ReqResult.exn "boom"⟩]).length ∧
    (0 < ([⟨0, "t", 1, ReqResult.exn "boom"⟩] : List Step).length ∧
      rowMatchesStep
          ((load_test "u" 1 10 0 0 [⟨0, "t", 1, ReqResult.exn "boom"⟩]).getD 0 default)
          (([⟨0, "t", 1, ReqResult.exn "boom"⟩] : List Step).getD 0 default) = true ∧
      (((load_test "u" 1 10 0 0
            [⟨0, "t", 1, ReqResult.exn "boom"⟩]).getD 0 default).status_code = none ↔
        (([⟨0, "t", 1, ReqResult.exn "boom"⟩] : List Step).getD 0 default).result.isFailure
            = true)) := by
  have hlen : (load_test "u" 1 10 0 0 [⟨0, "t", 1, ReqResult.exn "boom"⟩]).length = 1 := by
    norm_num [load_test, load_test_loop]
  have hk : 0 < (load_test "u" 1 10 0 0 [⟨0, "t", 1, ReqResult.exn "boom"⟩]).length := by
    rw [hlen]; norm_num
  exact ⟨hk, load_test_status_error_exclusive "u" 1 10 0 0 [⟨0, "t", 1, ReqResult.exn "boom"⟩] 0 hk⟩

/-- Length of a list splits over a Boolean predicate and a pointwise
complementary one. -/
lemma length_filter_split {α : Type} (p q : α → Bool) :
    ∀ l : List α, (∀ r ∈ l, q r = !p r) →
      l.length = (l.filter p).length + (l.filter q).length := by
  intro l
  induction l with
  | nil => intro _; rfl
  | cons a t ih =>
    intro h
    have ha := h a (List.mem_cons_self a t)
    have ht : ∀ r ∈ t, q r = !p r := fun r hr => h r (List.mem_cons_of_mem a hr)
    have hlen := ih ht
    cases hp : p a
    · rw [hp, Bool.not_false] at ha
      have e1 : List.filter p (a :: t) = List.filter p t := by simp [List.filter_cons, hp]
      have e2 : List.filter q (a :: t) = a :: List.filter q t := by simp [List.filter_cons, ha]
      rw [e1, e2, List.length_cons, List.length_cons, hlen]
      omega
    · rw [hp, Bool.not_true] at ha
      have e1 : List.filter p (a :: t) = a :: List.filter p t := by simp [List.filter_cons, hp]
      have e2 : List.filter q (a :: t) = List.filter q t := by simp [List.filter_cons, ha]
      rw [e1, e2, List.length_cons, List.length_cons, hlen]
      omega

/-- True when an exception outcome carries a nonempty description (the text
of a real RequestException); responses satisfy it vacuously. -/
def errMsgNonempty : ReqResult → Bool
  | ReqResult.exn m => m != ""
  | ReqResult.response _ => true

/-- Counterexample to C1 as stated: a run whose single request receives a
404 response has total = 1 but "Successful responses" = 1,
"Non-200 responses" = 1 and "Errors/exceptions" = 0, because line 71 counts
every error-free response with a status code as successful, so a non-200
response is counted both as successful and as non-200. -/
theorem total_accounting_cex :
    (load_test "u" 1 10 0 0 [⟨0, "t", 5, ReqResult.response 404⟩]).length ≠
      (latencies (load_test "u" 1 10 0 0 [⟨0, "t", 5, ReqResult.response 404⟩])).length +
        (non_200 (load_test "u" 1 10 0 0 [⟨0, "t", 5, ReqResult.response 404⟩])).length +
        (errors (load_test "u" 1 10 0 0 [⟨0, "t", 5, ReqResult.response 404⟩])).length := by
  norm_num [load_test, load_test_loop, mkRow, latencies, errors, non_200, isSuccessRow]

/-- C1 (amended): in every run whose exception descriptions are nonempty,
total = "Successful responses" + "Errors/exceptions", where the successful
count includes every error-free response regardless of status; the non-200
rows are a subset of the rows counted as successful, so adding the non-200
count double-counts them. -/
theorem total_eq_success_add_errors (url : String)
    (duration_seconds timeout_seconds sleep_ms start : ℚ) (steps : List Step)
    (h : steps.all (fun s => errMsgNonempty s.result) = true) :
    (load_test url duration_seconds timeout_seconds sleep_ms start steps).length =
      (latencies (load_test url duration_seconds timeout_seconds sleep_ms start steps)).length +
        (errors (load_test url duration_seconds timeout_seconds sleep_ms start steps)).length ∧
    ∀ r ∈ non_200 (load_test url duration_seconds timeout_seconds sleep_ms start steps),
      r ∈ (load_test url duration_seconds timeout_seconds sleep_ms start
        steps).filter isSuccessRow := by
  constructor
  · have hrows : ∀ r ∈ load_test url duration_seconds timeout_seconds sleep_ms start steps,
        (fun r : Row => r.error != "") r = !(isSuccessRow r) := by
      intro r hr
      unfold load_test at hr
      rw [load_test_loop_eq (start + duration_seconds) steps 0] at hr
      rcases rowsOf_mem _ 0 hr with ⟨j, s, hs, rfl⟩
      have hs2 : s ∈ steps := dispatched_sub _ _ s hs
      have hmsg := List.all_eq_true.mp h s hs2
      rcases hres : s.result with st | m
      · rcases mkRow_response hres j with ⟨h1, h2⟩
        simp [isSuccessRow, h1, h2]
      · rcases mkRow_exn hres j with ⟨h1, h2⟩
        rw [hres] at hmsg
        have hm : m ≠ "" := by simpa [errMsgNonempty] using hmsg
        simp [isSuccessRow, h1, h2, hm]
    have hsplit := length_filter_split isSuccessRow (fun r : Row => r.error != "") _ hrows
    unfold latencies errors
    rw [List.length_map]
    exact hsplit
  · intro r hr
    rcases List.mem_filter.mp hr with ⟨hmem, hcond⟩
    apply List.mem_filter.mpr
    refine ⟨hmem, ?_⟩
    rcases hst : r.status_code with _ | st
    · rw [hst] at hcond
      simp at hcond
    · rw [hst] at hcond
      simp only [Bool.and_eq_true, beq_iff_eq] at hcond
      simp [isSuccessRow, hst, hcond.1]

/-- Witness for C1 (amended) at a concrete run with one 200 response and one
failed request. -/
theorem total_eq_success_add_errors_witness :
    (([⟨0, "t", 1, ReqResult.response 200⟩, ⟨0, "t", 2, ReqResult.exn "boom"⟩] :
        List Step).all (fun s => errMsgNonempty s.result) = true) ∧
    (load_test "u" 1 10 0 0
        [⟨0, "t", 1, ReqResult.response 200⟩, ⟨0, "t", 2, ReqResult.exn "boom"⟩]).length =
      (latencies (load_test "u" 1 10 0 0
          [⟨0, "t", 1, ReqResult.response 200⟩, ⟨0, "t", 2, ReqResult.exn "boom"⟩])).length +
        (errors (load_test "u" 1 10 0 0
            [⟨0, "t", 1, ReqResult.response 200⟩, ⟨0, "t", 2, ReqResult.exn "boom"⟩])).length :=
  ⟨by decide,
    (total_eq_success_add_errors "u" 1 10 0 0
      [⟨0, "t", 1, ReqResult.response 200⟩, ⟨0, "t", 2, ReqResult.exn "boom"⟩] (by decide)).1⟩

/-- Counterexample to C2 as stated: a row carrying status 201 (inside
200 to 299) with no error is counted among the non-200 responses, because
line 73 excludes only the exact status 200. -/
theorem non_200_includes_2xx_cex :
    (⟨1, "t", 5, some 201, ""⟩ : Row) ∈ non_200 [(⟨1, "t", 5, some 201, ""⟩ : Row)] := by
  decide

/-- C2 (amended): among the error-free rows that received a response, exactly
the responses with status other than 200 are counted as non-200; statuses in
201 to 299 are counted among the non-200 responses, not as successes. -/
theorem mem_non_200_iff (rows : List Row) (r : Row) (st : ℕ)
    (hr : r ∈ rows) (he : r.error = "") (hs : r.status_code = some st) :
    r ∈ non_200 rows ↔ st ≠ 200 := by
  unfold non_200
  rw [List.mem_filter]
  rw [he, hs]
  simp [hr]

/-- Witness for C2 (amended): a 404 row is in the non-200 list. -/
theorem mem_non_200_iff_witness :
    (⟨1, "t", 5, some 404, ""⟩ : Row) ∈ [(⟨1, "t", 5, some 404, ""⟩ : Row)] ∧
    (⟨1, "t", 5, some 404, ""⟩ : Row).error = "" ∧
    (⟨1, "t", 5, some 404, ""⟩ : Row).status_code = some 404 ∧
    ((⟨1, "t", 5, some 404, ""⟩ : Row) ∈ non_200 [(⟨1, "t", 5, some 404, ""⟩ : Row)] ↔
      (404 : ℕ) ≠ 200) :=
  ⟨by decide, rfl, rfl,
    mem_non_200_iff [(⟨1, "t", 5, some 404, ""⟩ : Row)] _ 404 (by decide) rfl rfl⟩

/-- Counterexample to C4 as stated: on a run whose only request is refused,
`summarize` returns `None` rather than any degenerate Summary value with
tagged mean/percentile fields; the caller receives no Summary at all. -/
theorem summarize_no_degenerate_summary_cex :
    summarize (load_test "u" 1 10 0 0 [⟨0, "t", 100, ReqResult.exn "connection refused"⟩]) 500 =
      none := by
  norm_num [load_test, load_test_loop, mkRow, summarize, latencies, isSuccessRow]

/-- C4 (amended): on every input with zero successful samples, `summarize`
takes the early-return branch and evaluates to `None` (after printing the
counts and a diagnostic); being a total function of the row list, it cannot
crash on the empty latency list, but it produces no Summary value either. -/
theorem summarize_none_of_no_success (rows : List Row) (thr : ℚ)
    (h : rows.all (fun r => !isSuccessRow r) = true) :
    summarize rows thr = none := by
  have hlat : latencies rows = [] := by
    unfold latencies
    have hfil : rows.filter isSuccessRow = [] := by
      rw [List.filter_eq_nil_iff]
      intro a ha
      have := List.all_eq_true.mp h a ha
      simp only [Bool.not_eq_true'] at this
      simp [this]
    rw [hfil]
    rfl
  unfold summarize
  rw [hlat]
  rfl

/-- Witness for C4 (amended) at a concrete all-error run. -/
theorem summarize_none_of_no_success_witness :
    ([(⟨1, "t", 100, none, "refused"⟩ : Row)].all (fun r => !isSuccessRow r) = true) ∧
    summarize [(⟨1, "t", 100, none, "refused"⟩ : Row)] 500 = none :=
  ⟨by decide, summarize_none_of_no_success [(⟨1, "t", 100, none, "refused"⟩ : Row)] 500 (by decide)⟩

/-- Counterexample to C8 as stated: in a run with one 1000 ms success and one
100 ms failed request, line 89 reports 100 percent slow (1 of the 1 successful
sample), not the 50 percent that the fraction over all samples would give. -/
theorem slow_pct_not_all_samples_cex :
    slow_pct (latencies (load_test "u" 1 10 0 0
        [⟨0, "t", 1000, ReqResult.response 200⟩, ⟨0, "t", 100, ReqResult.exn "refused"⟩])) 500 ≠
      (((load_test "u" 1 10 0 0
            [⟨0, "t", 1000, ReqResult.response 200⟩,
              ⟨0, "t", 100, ReqResult.exn "refused"⟩]).filter
          (fun r => decide ((500 : ℚ) < r.latency_ms))).length : ℚ) /
        ((load_test "u" 1 10 0 0
            [⟨0, "t", 1000, ReqResult.response 200⟩,
              ⟨0, "t", 100, ReqResult.exn "refused"⟩]).length : ℚ) * 100 := by
  norm_num [load_test, load_test_loop, mkRow, latencies, isSuccessRow, slow_pct]

/-- C8 (amended): the slow percentage computed by `summarize` is the
percentage, among the samples counted as successful responses (error-free
with a status code), of those whose latency strictly exceeds the threshold —
not the fraction over all samples. -/
theorem slow_pct_success_fraction (rows : List Row) (thr : ℚ) :
    slow_pct (latencies rows) thr =
      ((rows.filter (fun r => isSuccessRow r && decide (thr < r.latency_ms))).length : ℚ) /
        ((rows.filter isSuccessRow).length : ℚ) * 100 := by
  unfold slow_pct latencies
  rw [List.filter_map, List.length_map, List.length_map, List.filter_filter]
  have hpred : (fun a => ((fun x => decide (thr < x)) ∘ fun r : Row => r.latency_ms) a &&
      isSuccessRow a) = (fun r : Row => isSuccessRow r && decide (thr < r.latency_ms)) := by
    funext a
    simp [Function.comp, Bool.and_comm]
  rw [hpred]

/-- C10: `summarize` does not modify its input rows: in the state-passing
rendering of its body the rows list is returned unchanged, and the returned
value agrees with `summarize`. -/
theorem summarize_preserves_rows (rows : List Row) (thr : ℚ) :
    (summarize_st rows thr).2.2 = rows ∧ (summarize_st rows thr).2.1 = summarize rows thr := by
  unfold summarize_st summarize
  by_cases h : (latencies rows).isEmpty <;> simp [h]

/-- Counterexample to C6 as stated: no configuration validation exists.  With
a non-positive timeout (0) a request is still dispatched (the run produces a
row), and with a non-positive duration (-1) `load_test` simply returns the
empty list normally instead of surfacing a configuration error. -/
theorem load_test_no_config_validation_cex :
    load_test "u" 1 0 0 0 [⟨0, "t", 5, ReqResult.response 200⟩] ≠ [] ∧
    load_test "u" (-1) 10 0 0 [⟨0, "t", 5, ReqResult.response 200⟩] = [] := by
  constructor
  · norm_num [load_test, load_test_loop]
  · norm_num [load_test, load_test_loop]

/-- C6 (amended): the script validates nothing before the run.  With a
non-positive duration the loop guard fails at once (the wall clock never goes
below the entry reading), so no request is dispatched and `load_test`
returns an empty row list normally, surfacing no error; a non-positive
timeout is merely passed to the HTTP call and does not prevent dispatch. -/
theorem load_test_nonpositive_duration_no_dispatch (url : String)
    (duration_seconds timeout_seconds sleep_ms start : ℚ) (steps : List Step)
    (hd : duration_seconds ≤ 0)
    (hclock : steps.all (fun s => decide (start ≤ s.now)) = true) :
    load_test url duration_seconds timeout_seconds sleep_ms start steps = [] := by
  unfold load_test
  cases steps with
  | nil => rfl
  | cons s rest =>
    have hs : start ≤ s.now := by
      have := List.all_eq_true.mp hclock s (List.mem_cons_self s rest)
      simpa using this
    have hguard : ¬(s.now < start + duration_seconds) := by
      push_neg
      linarith
    simp [load_test_loop, hguard]

/-- Witness for C6 (amended) at duration 0 with a single pending iteration. -/
theorem load_test_nonpositive_duration_no_dispatch_witness :
    ((0 : ℚ) ≤ 0) ∧
    (([⟨0, "t", 5, ReqResult.response 200⟩] : List Step).all
        (fun s => decide ((0 : ℚ) ≤ s.now)) = true) ∧
    load_test "u" 0 10 0 0 [⟨0, "t", 5, ReqResult.response 200⟩] = [] := by
  have hall : ([⟨0, "t", 5, ReqResult.response 200⟩] : List Step).all
      (fun s => decide ((0 : ℚ) ≤ s.now)) = true := by
    simp
  exact ⟨le_refl 0, hall,
    load_test_nonpositive_duration_no_dispatch "u" 0 10 0 0
      [⟨0, "t", 5, ReqResult.response 200⟩] (le_refl 0) hall⟩

lemma toNat_floor_cast {pos : ℚ} (h0 : 0 ≤ pos) :
    (((⌊pos⌋).toNat : ℕ) : ℚ) = ((⌊pos⌋ : ℤ) : ℚ) := by
  exact_mod_cast Int.toNat_of_nonneg (Int.floor_nonneg.mpr h0)

lemma frac_nonneg {pos : ℚ} (h0 : 0 ≤ pos) : 0 ≤ pos - (((⌊pos⌋).toNat : ℕ) : ℚ) := by
  rw [toNat_floor_cast h0]
  have := Int.floor_le pos
  linarith

lemma frac_lt_one {pos : ℚ} (h0 : 0 ≤ pos) : pos - (((⌊pos⌋).toNat : ℕ) : ℚ) < 1 := by
  rw [toNat_floor_cast h0]
  have := Int.lt_floor_add_one pos
  linarith

lemma toNat_floor_le_of_le {pos : ℚ} {n : ℕ} (hn : 1 ≤ n) (h1 : pos ≤ (n : ℚ) - 1) :
    (⌊pos⌋).toNat ≤ n - 1 := by
  have h2 : ⌊pos⌋ ≤ ⌊((n : ℚ) - 1)⌋ := Int.floor_le_floor h1
  have h3 : ((n : ℚ) - 1) = (((n : ℤ) - 1 : ℤ) : ℚ) := by push_cast; ring
  rw [h3, Int.floor_intCast] at h2
  omega

/-- In a sorted list, entries read by `getD` within bounds are monotone in
the index. -/
lemma sorted_getD_le {s : List ℚ} (hs : s.Sorted (fun a b => a ≤ b)) {i j : ℕ}
    (hij : i ≤ j) (hj : j < s.length) : s.getD i 0 ≤ s.getD j 0 := by
  have hi : i < s.length := Nat.lt_of_le_of_lt hij hj
  rw [List.getD_eq_getElem s 0 hi, List.getD_eq_getElem s 0 hj]
  rcases Nat.eq_or_lt_of_le hij with he | hlt
  · subst he
    exact le_refl _
  · have h := List.Sorted.rel_get_of_lt hs (a := ⟨i, hi⟩) (b := ⟨j, hj⟩) hlt
    simpa using h

lemma le_foldl_max (l : List ℚ) : ∀ b : ℚ, b ≤ l.foldl max b := by
  induction l with
  | nil => intro b; exact le_refl b
  | cons x t ih => intro b; exact le_trans (le_max_left b x) (ih (max b x))

lemma mem_le_foldl_max (l : List ℚ) : ∀ (b x : ℚ), x ∈ l → x ≤ l.foldl max b := by
  induction l with
  | nil => intro b x hx; simp at hx
  | cons y t ih =>
    intro b x hx
    rcases List.mem_cons.mp hx with h | h
    · subst h
      exact le_trans (le_max_right b x) (le_foldl_max t (max b x))
    · exact ih (max b y) x h

/-- Every element of a nonempty list is bounded by `np_max`. -/
lemma mem_le_np_max (l : List ℚ) (x : ℚ) (hx : x ∈ l) : x ≤ np_max l :=
  mem_le_foldl_max l (l.headD 0) x hx

lemma interp_le_hi (s : List ℚ) (hs : s.Sorted (fun a b => a ≤ b)) (hn : 1 ≤ s.length)
    {pos : ℚ} (h0 : 0 ≤ pos) (h1 : pos ≤ (s.length : ℚ) - 1) :
    interp s pos ≤ s.getD (min ((⌊pos⌋).toNat + 1) (s.length - 1)) 0 := by
  have hin : (⌊pos⌋).toNat ≤ s.length - 1 := toNat_floor_le_of_le hn h1
  have hmin_lt : min ((⌊pos⌋).toNat + 1) (s.length - 1) < s.length := by omega
  have hlohi : s.getD ((⌊pos⌋).toNat) 0 ≤ s.getD (min ((⌊pos⌋).toNat + 1) (s.length - 1)) 0 :=
    sorted_getD_le hs (by omega) hmin_lt
  have hf0 := frac_nonneg h0
  have hf1 := frac_lt_one h0
  simp only [interp]
  nlinarith [mul_nonneg (by linarith : (0 : ℚ) ≤ 1 - (pos - (((⌊pos⌋).toNat : ℕ) : ℚ)))
    (sub_nonneg.mpr hlohi)]

lemma lo_le_interp (s : List ℚ) (hs : s.Sorted (fun a b => a ≤ b)) (hn : 1 ≤ s.length)
    {pos : ℚ} (h0 : 0 ≤ pos) (h1 : pos ≤ (s.length : ℚ) - 1) :
    s.getD ((⌊pos⌋).toNat) 0 ≤ interp s pos := by
  have hin : (⌊pos⌋).toNat ≤ s.length - 1 := toNat_floor_le_of_le hn h1
  have hmin_lt : min ((⌊pos⌋).toNat + 1) (s.length - 1) < s.length := by omega
  have hlohi : s.getD ((⌊pos⌋).toNat) 0 ≤ s.getD (min ((⌊pos⌋).toNat + 1) (s.length - 1)) 0 :=
    sorted_getD_le hs (by omega) hmin_lt
  have hf0 := frac_nonneg h0
  simp only [interp]
  nlinarith [mul_nonneg hf0 (sub_nonneg.mpr hlohi)]

/-- Linear interpolation into a sorted list is monotone in the virtual
index. -/
lemma interp_mono (s : List ℚ) (hs : s.Sorted (fun a b => a ≤ b)) (hn : 1 ≤ s.length)
    {pos1 pos2 : ℚ} (h0 : 0 ≤ pos1) (h12 : pos1 ≤ pos2) (h2 : pos2 ≤ (s.length : ℚ) - 1) :
    interp s pos1 ≤ interp s pos2 := by
  have h0b : 0 ≤ pos2 := le_trans h0 h12
  have h1a : pos1 ≤ (s.length : ℚ) - 1 := le_trans h12 h2
  have hfl : ⌊pos1⌋ ≤ ⌊pos2⌋ := Int.floor_le_floor h12
  have hii : (⌊pos1⌋).toNat ≤ (⌊pos2⌋).toNat := by omega
  rcases Nat.eq_or_lt_of_le hii with he | hlt
  · have hin : (⌊pos1⌋).toNat ≤ s.length - 1 := toNat_floor_le_of_le hn h1a
    have hmin_lt : min ((⌊pos1⌋).toNat + 1) (s.length - 1) < s.length := by omega
    have hlohi : s.getD ((⌊pos1⌋).toNat) 0 ≤
        s.getD (min ((⌊pos1⌋).toNat + 1) (s.length - 1)) 0 :=
      sorted_getD_le hs (by omega) hmin_lt
    simp only [interp]
    rw [← he]
    nlinarith [mul_nonneg (by linarith : (0 : ℚ) ≤ pos2 - pos1) (sub_nonneg.mpr hlohi)]
  · have hin2 : (⌊pos2⌋).toNat ≤ s.length - 1 := toNat_floor_le_of_le hn h2
    calc interp s pos1 ≤ s.getD (min ((⌊pos1⌋).toNat + 1) (s.length - 1)) 0 :=
        interp_le_hi s hs hn h0 h1a
    _ ≤ s.getD ((⌊pos2⌋).toNat) 0 := sorted_getD_le hs (by omega) (by omega)
    _ ≤ interp s pos2 := lo_le_interp s hs hn h0b h2

/-- Linear interpolation into a sorted list never exceeds the last entry. -/
lemma interp_le_last (s : List ℚ) (hs : s.Sorted (fun a b => a ≤ b)) (hn : 1 ≤ s.length)
    {pos : ℚ} (h0 : 0 ≤ pos) (h1 : pos ≤ (s.length : ℚ) - 1) :
    interp s pos ≤ s.getD (s.length - 1) 0 :=
  le_trans (interp_le_hi s hs hn h0 h1)
    (sorted_getD_le hs (Nat.min_le_right _ _) (by omega))

/-- `np.percentile` is monotone in the requested percentile. -/
lemma percentile_mono (l : List ℚ) (hl : l ≠ []) {p1 p2 : ℚ}
    (h0 : 0 ≤ p1) (h12 : p1 ≤ p2) (h2 : p2 ≤ 100) :
    percentile l p1 ≤ percentile l p2 := by
  unfold percentile
  set s := l.insertionSort (fun a b => a ≤ b) with hsdef
  have hsort : s.Sorted (fun a b => a ≤ b) := List.sorted_insertionSort _ l
  have hlen : s.length = l.length := (List.perm_insertionSort _ l).length_eq
  have hn : 1 ≤ s.length := by
    rw [hlen]
    exact List.length_pos.mpr hl
  have hn1 : (0 : ℚ) ≤ (s.length : ℚ) - 1 := by
    have h1 : (1 : ℚ) ≤ (s.length : ℚ) := by exact_mod_cast hn
    linarith
  apply interp_mono s hsort hn
  · exact mul_nonneg (div_nonneg h0 (by norm_num)) hn1
  · exact mul_le_mul_of_nonneg_right (by linarith) hn1
  · calc p2 / 100 * ((s.length : ℚ) - 1) ≤ 1 * ((s.length : ℚ) - 1) :=
      mul_le_mul_of_nonneg_right (by linarith) hn1
    _ = (s.length : ℚ) - 1 := one_mul _

/-- `np.percentile` of a nonempty list is at most the maximum entry. -/
lemma percentile_le_np_max (l : List ℚ) (hl : l ≠ []) {p : ℚ}
    (h0 : 0 ≤ p) (h2 : p ≤ 100) :
    percentile l p ≤ np_max l := by
  unfold percentile
  set s := l.insertionSort (fun a b => a ≤ b) with hsdef
  have hsort : s.Sorted (fun a b => a ≤ b) := List.sorted_insertionSort _ l
  have hlen : s.length = l.length := (List.perm_insertionSort _ l).length_eq
  have hn : 1 ≤ s.length := by
    rw [hlen]
    exact List.length_pos.mpr hl
  have hn1 : (0 : ℚ) ≤ (s.length : ℚ) - 1 := by
    have h1 : (1 : ℚ) ≤ (s.length : ℚ) := by exact_mod_cast hn
    linarith
  have hpos0 : 0 ≤ p / 100 * ((s.length : ℚ) - 1) :=
    mul_nonneg (div_nonneg h0 (by norm_num)) hn1
  have hpos1 : p / 100 * ((s.length : ℚ) - 1) ≤ (s.length : ℚ) - 1 := by
    calc p / 100 * ((s.length : ℚ) - 1) ≤ 1 * ((s.length : ℚ) - 1) :=
      mul_le_mul_of_nonneg_right (by linarith) hn1
    _ = (s.length : ℚ) - 1 := one_mul _
  have hlast := interp_le_last s hsort hn hpos0 hpos1
  have hmem : s.getD (s.length - 1) 0 ∈ s := by
    rw [List.getD_eq_getElem s 0 (by omega)]
    exact List.getElem_mem _
  have hmeml : s.getD (s.length - 1) 0 ∈ l := (List.perm_insertionSort _ l).mem_iff.mp hmem
  exact le_trans hlast (mem_le_np_max l _ hmeml)

/-- C7: over any nonempty ingested latency list, the percentile values
computed by `summarize` are monotone and bounded by the maximum:
p50 is at most p95, p95 at most p99, and p99 at most the maximum latency. -/
theorem percentile_monotone_bounds (l : List ℚ) (hl : l ≠ []) :
    percentile l 50 ≤ percentile l 95 ∧ percentile l 95 ≤ percentile l 99 ∧
      percentile l 99 ≤ np_max l :=
  ⟨percentile_mono l hl (by norm_num) (by norm_num) (by norm_num),
    percentile_mono l hl (by norm_num) (by norm_num) (by norm_num),
    percentile_le_np_max l hl (by norm_num) (by norm_num)⟩

/-- Witness for C7 at the concrete latency list 3, 1, 2. -/
theorem percentile_monotone_bounds_witness :
    ([3, 1, 2] : List ℚ) ≠ [] ∧
    (percentile [3, 1, 2] 50 ≤ percentile [3, 1, 2] 95 ∧
      percentile [3, 1, 2] 95 ≤ percentile [3, 1, 2] 99 ∧
      percentile [3, 1, 2] 99 ≤ np_max [3, 1, 2]) :=
  ⟨by simp, percentile_monotone_bounds [3, 1, 2] (by simp)⟩

end LoadTest
